import Mathlib

/-!
Verification of the feature-consistency serving pipeline of the churn-prediction
repository.  The definitions shallowly embed `src/serving/inference.py` and
`src/app/main.py`; the parts of the Feature Codec whose bodies are TODO stubs in
the source (`encode`, `predict`, the persistence round trip) are modelled from
the specification, as marked in their doc comments.
-/

namespace Churn

deriving instance DecidableEq for Except

/-- A character removed by Python `str.strip()` (ASCII whitespace, as stripped
by the feature-column loader in `inference.py`). -/
def isStripChar (c : Char) : Bool :=
  c = ' ' || c = '\t' || c = '\n' || c = '\r' || c = '\x0b' || c = '\x0c'

/-- Leading-whitespace removal on the character list of a string. -/
def lstripChars (l : List Char) : List Char := l.dropWhile isStripChar

/-- Trailing-whitespace removal on the character list of a string. -/
def rstripChars (l : List Char) : List Char := (l.reverse.dropWhile isStripChar).reverse

/-- Python `str.strip()` on the character list: leading then trailing removal. -/
def stripChars (l : List Char) : List Char := rstripChars (lstripChars l)

/-- Python `str.strip()` at the string level, as used by `ln.strip()` in
`inference.py` when reading `feature_columns.txt`. -/
def strip (s : String) : String := ⟨stripChars s.data⟩

/-- The feature-schema load of `inference.py` lines 64-70.  The input is the
line list of `feature_columns.txt` when the file is readable, `none` when
opening or reading it raises.  The code runs
`FEATURE_COLS = [ln.strip() for ln in f if ln.strip()]` and wraps any raised
exception in `Exception("Failed to load feature columns: ...")`. -/
def loadFeatureColumns (content : Option (List String)) : Except String (List String) :=
  match content with
  | none => Except.error "Failed to load feature columns"
  | some lines =>
      Except.ok (lines.filterMap (fun ln => if strip ln = "" then none else some (strip ln)))

/-- An exact decimal number `mant / 10 ^ exp`: the shallow embedding of the
floating-point values flowing through the pipeline (all numbers the pipeline
handles are decimal literals, so this embedding is exact). -/
structure Decimal where
  mant : Int
  exp : Nat
deriving DecidableEq

/-- A raw field value of an input record: the JSON-ish types a
`RawRecord` may carry per the spec data model. -/
inductive Value where
  | str (s : String)
  | int (n : Int)
  | float (d : Decimal)
  | bool (b : Bool)
deriving DecidableEq

/-- A raw input record: an ordered mapping from field name to value. -/
abbrev RawRecord := List (String × Value)

/-- The fixed two-value-to-{0,1} table of one binary field. -/
abbrev BinaryMapping := List (String × Nat)

/-- The feature schema of the spec data model: binary tables, ordered
categorical vocabularies (head is the dropped reference category), numeric
fields, and the persisted ordered output-column list. -/
structure FeatureSchema where
  binary_fields : List (String × BinaryMapping)
  categorical_fields : List (String × List String)
  numeric_fields : List String
  feature_columns : List String
deriving DecidableEq

/-- Modelled from the spec: the error taxonomy entry `EncodingError` (a single
record cannot be encoded); the source's codec body is a TODO stub. -/
inductive EncodingError where
  | numericCoercion (field : String) (v : Value)
  | missingNumeric (field : String)
  | unknownColumn (col : String)
deriving DecidableEq

/-- Value of an all-digit character run, most significant first. -/
def digitsVal (acc : Nat) : List Char → Nat
  | [] => acc
  | c :: cs => digitsVal (acc * 10 + (c.toNat - 48)) cs

/-- Modelled from the spec: numeric-string coercion (Python `float(s)`) for the
numeric-field branch of `encode`, absent from the stubbed source.  Accepts an
optional sign, digits, and at most one decimal point. -/
def parseDecimal (s : String) : Option Decimal :=
  let signAndRest : Int × List Char :=
    match s.data with
    | '-' :: rest => (-1, rest)
    | '+' :: rest => (1, rest)
    | l => (1, l)
  match (signAndRest.2).span (fun c => c ≠ '.') with
  | (a, []) =>
      if a ≠ [] ∧ a.all Char.isDigit then some ⟨signAndRest.1 * digitsVal 0 a, 0⟩ else none
  | (a, _ :: b) =>
      if (a ++ b) ≠ [] ∧ (a ++ b).all Char.isDigit then
        some ⟨signAndRest.1 * digitsVal 0 (a ++ b), b.length⟩
      else none

/-- Modelled from the spec: coercion of a raw value to a floating-point number
("For each numeric field: coerce to a floating-point number; fails ... if
coercion is impossible"). -/
def coerceFloat : Value → Option Decimal
  | Value.int n => some ⟨n, 0⟩
  | Value.float d => some d
  | Value.bool b => some ⟨if b then 1 else 0, 0⟩
  | Value.str s => parseDecimal s

/-- Field lookup in a raw record. -/
def lookupField (r : RawRecord) (f : String) : Option Value := r.lookup f

/-- Modelled from the spec: the binary-field branch of `encode` — look the raw
value up in the field's fixed table, falling back to 0 when the value is
missing from the table or the field is absent (the source's `BINARY_MAP` is a
TODO stub). -/
def binaryEncode (m : BinaryMapping) : Option Value → Decimal
  | some (Value.str s) =>
      match m.lookup s with
      | some b => ⟨(b : Int), 0⟩
      | none => ⟨0, 0⟩
  | _ => ⟨0, 0⟩

/-- Search one vocabulary tail for the category whose drop-first one-hot
expansion column is named `col` (column naming `field ++ "_" ++ category`, per
the spec's end-to-end example). -/
def findCatIn (f : String) (col : String) : List String → Option String
  | [] => none
  | c :: cs => if col = f ++ "_" ++ c then some c else findCatIn f col cs

/-- Locate the categorical field and non-reference category whose expansion
column is named `col` (the vocabulary head is the dropped reference). -/
def findCatCol (col : String) : List (String × List String) → Option (String × String)
  | [] => none
  | (f, vocab) :: rest =>
      match findCatIn f col (vocab.drop 1) with
      | some c => some (f, c)
      | none => findCatCol col rest

/-- Modelled from the spec: the per-column encoder of the Feature Codec's
`encode` (the source's transformation body is a TODO stub).  A binary column
uses its fixed table with fallback 0; a categorical expansion column is the 0/1
indicator of the record's value equalling that category; a numeric column
coerces the record's value and fails with `EncodingError` when the field is
missing or the value is not coercible. -/
def encodeCol (schema : FeatureSchema) (r : RawRecord) (col : String) :
    Except EncodingError Decimal :=
  match schema.binary_fields.lookup col with
  | some m => Except.ok (binaryEncode m (lookupField r col))
  | none =>
    match findCatCol col schema.categorical_fields with
    | some (f, c) =>
        Except.ok (if lookupField r f = some (Value.str c) then ⟨1, 0⟩ else ⟨0, 0⟩)
    | none =>
        if col ∈ schema.numeric_fields then
          match lookupField r col with
          | none => Except.error (EncodingError.missingNumeric col)
          | some v =>
              match coerceFloat v with
              | some q => Except.ok q
              | none => Except.error (EncodingError.numericCoercion col v)
        else Except.error (EncodingError.unknownColumn col)

/-- Effectful map over a list in `Except`, stopping at the first failure. -/
def mapExcept {ε α β : Type} (f : α → Except ε β) : List α → Except ε (List β)
  | [] => Except.ok []
  | x :: xs =>
      match f x with
      | Except.error e => Except.error e
      | Except.ok y =>
          match mapExcept f xs with
          | Except.error e => Except.error e
          | Except.ok ys => Except.ok (y :: ys)

/-- Modelled from the spec: `encode(record, schema) -> EncodedVector`, one
value per schema feature column, in the column order of the schema. -/
def encode (r : RawRecord) (schema : FeatureSchema) : Except EncodingError (List Decimal) :=
  mapExcept (encodeCol schema r) schema.feature_columns

/-- Modelled from the spec and the source docstring of
`inference.predict`: encode the record, run the classifier, and render the
prediction as "Likely to churn" (prediction 1) or "Not likely to churn"
(prediction 0); the stubbed source reads the model and schema from globals, so
they are explicit parameters here. -/
def predict (clf : List Decimal → Bool) (schema : FeatureSchema) (input : RawRecord) :
    Except EncodingError String :=
  match encode input schema with
  | Except.error e => Except.error e
  | Except.ok vec =>
      Except.ok (if clf vec then "Likely to churn" else "Not likely to churn")

/-- A JSON response of the prediction endpoint of `main.py`: either
`{"prediction": ...}` or `{"error": ...}`. -/
inductive ApiResponse where
  | prediction (label : String)
  | error (message : String)
deriving DecidableEq

/-- The `str(e)` rendering the endpoint applies to a propagated failure. -/
def errorMessage : EncodingError → String
  | EncodingError.numericCoercion f _ => "could not convert value of field " ++ f
  | EncodingError.missingNumeric f => "missing numeric field " ++ f
  | EncodingError.unknownColumn c => "unknown feature column " ++ c

/-- The `/predict` handler of `main.py` lines 48-69: call `predict` on the
record and wrap the result, converting any raised error into an error payload. -/
def get_prediction (clf : List Decimal → Bool) (schema : FeatureSchema) (input : RawRecord) :
    ApiResponse :=
  match predict clf schema input with
  | Except.ok out => ApiResponse.prediction out
  | Except.error e => ApiResponse.error (errorMessage e)

/-- The loaded classifier artifact (abstract: only its identity matters to the
claims about artifact pairing). -/
structure Model where
  id : Nat
deriving DecidableEq

/-- The filesystem and MLflow environment the serving process starts in. -/
structure Env where
  primaryModel : Option Model
  localPaths : List (String × Nat)
  loadLocal : String → Option Model
  readFile : String → Option (List String)

/-- `os.path.join` for the paths the serving module builds. -/
def joinPath (a b : String) : String := a ++ "/" ++ b

/-- Python `max(paths, key=os.path.getmtime)`: first path of maximal mtime. -/
def pickLatest : List (String × Nat) → Option String
  | [] => none
  | x :: xs => some ((xs.foldl (fun best p => if p.2 > best.2 then p else best) x).1)

/-- The model-loading block of `inference.py` lines 38-58: try `/app/model`;
on failure glob local mlruns paths, pick the latest and load it, updating
`MODEL_DIR` to that path; raise when both fail.  Returns the loaded model and
the final value of `MODEL_DIR`. -/
def startupModel (env : Env) : Except String (Model × String) :=
  match env.primaryModel with
  | some m => Except.ok (m, "/app/model")
  | none =>
    match pickLatest env.localPaths with
    | some p =>
        match env.loadLocal p with
        | some m => Except.ok (m, p)
        | none => Except.error "Failed to load model: fallback failed"
    | none => Except.error "Failed to load model: no model found in local mlruns"

/-- The state a successfully started serving process holds. -/
structure ServingState where
  model : Model
  modelDir : String
  schemaFile : String
  featureCols : List String
deriving DecidableEq

/-- Module import of `inference.py`: load the model (lines 38-58), then read
`feature_columns.txt` from the final `MODEL_DIR` (lines 64-70); any raised
exception aborts the import, so the process never starts. -/
def servingStartup (env : Env) : Except String ServingState :=
  match startupModel env with
  | Except.error e => Except.error e
  | Except.ok (m, dir) =>
      match loadFeatureColumns (env.readFile (joinPath dir "feature_columns.txt")) with
      | Except.error e => Except.error e
      | Except.ok cols => Except.ok ⟨m, dir, joinPath dir "feature_columns.txt", cols⟩

/-- The liveness payload of the health endpoint. -/
structure HealthPayload where
  status : String
deriving DecidableEq

/-- The health-check handler of `main.py` lines 28-33: it reads nothing and
returns `{"status": "ok"}`. -/
def root (_st : ServingState) : HealthPayload := { status := "ok" }

/-- The persisted artifact: the column-order file (one line per column) next to
the serialized tables. -/
structure PersistedSchema where
  columnLines : List String
  binaryTables : List (String × BinaryMapping)
  vocabTables : List (String × List String)
  numericList : List String
deriving DecidableEq

/-- Modelled from the spec: `persist(schema, target)` writes the ordered
`feature_columns` list one per line and all vocabulary/mapping tables (the
source has no persistence code). -/
def persist (s : FeatureSchema) : PersistedSchema :=
  ⟨s.feature_columns, s.binary_fields, s.categorical_fields, s.numeric_fields⟩

/-- `load(source) -> FeatureSchema`: the column order is read back through the
code's `feature_columns.txt` parsing (strip each line, drop blank lines,
`inference.py` line 67); the tables are read back verbatim per the spec. -/
def loadSchema (p : PersistedSchema) : FeatureSchema :=
  { feature_columns :=
      p.columnLines.filterMap (fun ln => if strip ln = "" then none else some (strip ln)),
    binary_fields := p.binaryTables,
    categorical_fields := p.vocabTables,
    numeric_fields := p.numericList }

/-- Modelled from the spec: a schema is valid when every feature column is a
binary field, a one-hot expansion column, or a numeric field (the column-order
invariant of the spec data model). -/
def ValidSchema (s : FeatureSchema) : Prop :=
  ∀ col ∈ s.feature_columns,
    s.binary_fields.lookup col ≠ none ∨
    findCatCol col s.categorical_fields ≠ none ∨
    col ∈ s.numeric_fields

/-- A record is schema-conformant when every numeric feature column finds a
coercible value in the record. -/
def Conformant (r : RawRecord) (s : FeatureSchema) : Prop :=
  ∀ col ∈ s.feature_columns, col ∈ s.numeric_fields →
    ((lookupField r col).bind coerceFloat).isSome = true

instance validSchemaDec (s : FeatureSchema) : Decidable (ValidSchema s) :=
  inferInstanceAs (Decidable (∀ col ∈ s.feature_columns,
    s.binary_fields.lookup col ≠ none ∨
    findCatCol col s.categorical_fields ≠ none ∨
    col ∈ s.numeric_fields))

instance conformantDec (r : RawRecord) (s : FeatureSchema) : Decidable (Conformant r s) :=
  inferInstanceAs (Decidable (∀ col ∈ s.feature_columns, col ∈ s.numeric_fields →
    ((lookupField r col).bind coerceFloat).isSome = true))

/-- The end-to-end example schema of the spec (telco churn). -/
def exampleSchema : FeatureSchema :=
  { binary_fields := [("gender", [("Female", 0), ("Male", 1)])],
    categorical_fields := [("Contract", ["Month-to-month", "One year", "Two year"])],
    numeric_fields := ["MonthlyCharges"],
    feature_columns := ["gender", "Contract_One year", "Contract_Two year", "MonthlyCharges"] }

/-- The end-to-end example record of the spec. -/
def exampleRecord : RawRecord :=
  [("gender", Value.str "Female"), ("Contract", Value.str "Two year"),
   ("MonthlyCharges", Value.float ⟨850, 1⟩)]

/-- A record with a non-numeric string in the declared numeric field. -/
def badNumericRecord : RawRecord :=
  [("gender", Value.str "Female"), ("Contract", Value.str "One year"),
   ("MonthlyCharges", Value.str "abc")]

/-- A record whose binary and categorical values were never seen in training. -/
def unknownValuesRecord : RawRecord :=
  [("gender", Value.str "Alien"), ("Contract", Value.str "Weekly"),
   ("MonthlyCharges", Value.float ⟨10, 0⟩)]

/-- A schema whose only column name carries surrounding whitespace. -/
def paddedSchema : FeatureSchema :=
  { binary_fields := [], categorical_fields := [], numeric_fields := [],
    feature_columns := [" gender "] }

/-- An environment whose primary model loads and whose feature file is
readable. -/
def primaryEnv : Env :=
  { primaryModel := some ⟨1⟩,
    localPaths := [],
    loadLocal := fun _ => none,
    readFile := fun p =>
      if p = "/app/model/feature_columns.txt" then some ["gender"] else none }

/-- The serving state `primaryEnv` starts in. -/
def primaryState : ServingState :=
  ⟨⟨1⟩, "/app/model", "/app/model/feature_columns.txt", ["gender"]⟩

/-- An environment whose primary model load fails and which falls back to the
latest local mlruns artifact. -/
def fallbackEnv : Env :=
  { primaryModel := none,
    localPaths := [("./mlruns/1/a/artifacts/model", 5), ("./mlruns/1/b/artifacts/model", 9)],
    loadLocal := fun p => if p = "./mlruns/1/b/artifacts/model" then some ⟨2⟩ else none,
    readFile := fun p =>
      if p = "./mlruns/1/b/artifacts/model/feature_columns.txt" then some ["gender"] else none }

/-- The serving state `fallbackEnv` starts in. -/
def fallbackState : ServingState :=
  ⟨⟨2⟩, "./mlruns/1/b/artifacts/model",
   "./mlruns/1/b/artifacts/model/feature_columns.txt", ["gender"]⟩

theorem length_dropWhile_le {α : Type} (p : α → Bool) (l : List α) :
    (l.dropWhile p).length ≤ l.length := by
  conv_rhs => rw [← List.takeWhile_append_dropWhile p l]
  rw [List.length_append]
  omega

theorem head_false_of_dropWhile_cons {α : Type} (p : α → Bool) :
    ∀ (l : List α) (a : α) (t : List α), l.dropWhile p = a :: t → p a = false := by
  intro l
  induction l with
  | nil => intro a t h; simp [List.dropWhile] at h
  | cons x xs ih =>
    intro a t h
    by_cases hx : p x
    · rw [List.dropWhile_cons, if_pos hx] at h
      exact ih a t h
    · rw [List.dropWhile_cons, if_neg hx] at h
      injection h with h1 _
      subst h1
      simpa using hx

theorem dropWhile_eq_self_of_head {α : Type} (p : α → Bool) (l : List α)
    (h : ∀ a t, l = a :: t → p a = false) : l.dropWhile p = l := by
  cases l with
  | nil => rfl
  | cons x xs =>
    rw [List.dropWhile_cons, if_neg]
    simp [h x xs rfl]

theorem dropWhile_dropWhile {α : Type} (p : α → Bool) (l : List α) :
    (l.dropWhile p).dropWhile p = l.dropWhile p := by
  apply dropWhile_eq_self_of_head
  intro a t h
  exact head_false_of_dropWhile_cons p l a t h

theorem head_false_of_dropWhile_eq_self {α : Type} (p : α → Bool) (a : α) (t : List α)
    (h : (a :: t).dropWhile p = a :: t) : p a = false := by
  by_cases hp : p a
  · rw [List.dropWhile_cons, if_pos hp] at h
    have hle := length_dropWhile_le p t
    have hlen := congrArg List.length h
    simp [List.length_cons] at hlen
    omega
  · simpa using hp

theorem lstripChars_idem (l : List Char) : lstripChars (lstripChars l) = lstripChars l :=
  dropWhile_dropWhile isStripChar l

theorem exists_append_rstrip (l : List Char) : ∃ u, l = rstripChars l ++ u := by
  refine ⟨(l.reverse.takeWhile isStripChar).reverse, ?_⟩
  conv_lhs => rw [← List.reverse_reverse l,
    ← List.takeWhile_append_dropWhile isStripChar l.reverse]
  rw [List.reverse_append]
  rfl

theorem lstrip_of_rstrip (l : List Char) (h : lstripChars l = l) :
    lstripChars (rstripChars l) = rstripChars l := by
  obtain ⟨u, hu⟩ := exists_append_rstrip l
  cases hr : rstripChars l with
  | nil => rfl
  | cons a t =>
    apply dropWhile_eq_self_of_head
    intro b t2 he
    have hb : b = a := by injection he with h1 _; exact h1.symm
    subst hb
    rw [hr] at hu
    have hl : l = b :: (t ++ u) := by rw [hu]; rfl
    have hself : (b :: (t ++ u)).dropWhile isStripChar = b :: (t ++ u) := by
      rw [← hl]; exact h
    exact head_false_of_dropWhile_eq_self isStripChar b (t ++ u) hself

theorem rstripChars_idem (l : List Char) : rstripChars (rstripChars l) = rstripChars l := by
  unfold rstripChars
  rw [List.reverse_reverse, dropWhile_dropWhile]

theorem stripChars_idem (l : List Char) : stripChars (stripChars l) = stripChars l := by
  unfold stripChars
  rw [lstrip_of_rstrip (lstripChars l) (lstripChars_idem l), rstripChars_idem]

theorem strip_idem (s : String) : strip (strip s) = strip s :=
  congrArg String.mk (stripChars_idem s.data)

theorem mapExcept_ok_forall₂ {ε α β : Type} (f : α → Except ε β) :
    ∀ (xs : List α) (ys : List β), mapExcept f xs = Except.ok ys →
      List.Forall₂ (fun x y => f x = Except.ok y) xs ys := by
  intro xs
  induction xs with
  | nil =>
    intro ys h
    simp only [mapExcept, Except.ok.injEq] at h
    subst h
    exact List.Forall₂.nil
  | cons x xs ih =>
    intro ys h
    cases hfx : f x with
    | error e =>
      simp only [mapExcept, hfx] at h
      exact Except.noConfusion h
    | ok y =>
      cases hrest : mapExcept f xs with
      | error e =>
        simp only [mapExcept, hfx, hrest] at h
        exact Except.noConfusion h
      | ok ys2 =>
        simp only [mapExcept, hfx, hrest, Except.ok.injEq] at h
        subst h
        exact List.Forall₂.cons hfx (ih ys2 hrest)

theorem mapExcept_ok_of_mem {ε α β : Type} (f : α → Except ε β) :
    ∀ (xs : List α) (ys : List β), mapExcept f xs = Except.ok ys →
      ∀ x ∈ xs, ∃ y, f x = Except.ok y := by
  intro xs
  induction xs with
  | nil => intro ys h x hx; cases hx
  | cons a t ih =>
    intro ys h x hx
    cases hfa : f a with
    | error e =>
      simp only [mapExcept, hfa] at h
      exact Except.noConfusion h
    | ok y =>
      cases hrest : mapExcept f t with
      | error e =>
        simp only [mapExcept, hfa, hrest] at h
        exact Except.noConfusion h
      | ok ys2 =>
        cases hx with
        | head => exact ⟨y, hfa⟩
        | tail _ hmem => exact ih ys2 hrest x hmem

theorem mapExcept_isOk_of_all {ε α β : Type} (f : α → Except ε β) :
    ∀ xs : List α, (∀ x ∈ xs, ∃ y, f x = Except.ok y) →
      ∃ ys, mapExcept f xs = Except.ok ys := by
  intro xs
  induction xs with
  | nil => intro _; exact ⟨[], rfl⟩
  | cons x xs ih =>
    intro h
    obtain ⟨y, hy⟩ := h x (List.mem_cons_self x xs)
    obtain ⟨ys, hys⟩ := ih (fun a ha => h a (List.mem_cons_of_mem x ha))
    exact ⟨y :: ys, by simp only [mapExcept, hy, hys]⟩

theorem findCatIn_mem (f col : String) :
    ∀ (l : List String) (c : String), findCatIn f col l = some c →
      c ∈ l ∧ col = f ++ "_" ++ c := by
  intro l
  induction l with
  | nil => intro c h; simp [findCatIn] at h
  | cons a t ih =>
    intro c h
    by_cases ha : col = f ++ "_" ++ a
    · simp only [findCatIn, if_pos ha, Option.some.injEq] at h
      subst h
      exact ⟨List.mem_cons_self a t, ha⟩
    · simp only [findCatIn, if_neg ha] at h
      obtain ⟨hm, he⟩ := ih c h
      exact ⟨List.mem_cons_of_mem a hm, he⟩

theorem findCatCol_mem (col : String) :
    ∀ (cats : List (String × List String)) (f c : String),
      findCatCol col cats = some (f, c) →
      ∃ vocab, (f, vocab) ∈ cats ∧ c ∈ vocab.drop 1 ∧ col = f ++ "_" ++ c := by
  intro cats
  induction cats with
  | nil => intro f c h; simp [findCatCol] at h
  | cons p rest ih =>
    intro f c h
    obtain ⟨g, vocab⟩ := p
    cases hfi : findCatIn g col (vocab.drop 1) with
    | some c2 =>
      simp only [findCatCol, hfi, Option.some.injEq, Prod.mk.injEq] at h
      obtain ⟨h1, h2⟩ := h
      obtain ⟨hm, he⟩ := findCatIn_mem g col (vocab.drop 1) c2 hfi
      subst h1
      subst h2
      exact ⟨vocab, List.mem_cons_self _ _, hm, he⟩
    | none =>
      simp only [findCatCol, hfi] at h
      obtain ⟨vocab2, hm, hd, he⟩ := ih f c h
      exact ⟨vocab2, List.mem_cons_of_mem _ hm, hd, he⟩

/-- The end-to-end example of the spec: the telco record encodes to
`[0, 0, 1, 85.0]` under the example schema. -/
theorem encode_example :
    encode exampleRecord exampleSchema =
      Except.ok [⟨0, 0⟩, ⟨0, 0⟩, ⟨1, 0⟩, ⟨850, 1⟩] := rfl

/-- C1 counterexample: a readable `feature_columns.txt` that yields no columns
(no lines at all, or only blank lines) does not make the schema load fail — the
load succeeds with an empty column list, refuting the claim that the load
fails whenever the persisted column order is empty. -/
theorem churn_c1_counterexample :
    loadFeatureColumns (some []) = Except.ok [] ∧
    loadFeatureColumns (some ["", "   "]) = Except.ok [] :=
  ⟨rfl, rfl⟩

/-- C1 (amended): the schema load fails exactly when `feature_columns.txt`
cannot be read — a readable file never fails, even when it yields no columns —
and a serving process refuses to start unless the load succeeded: any started
process has read the file and loaded its columns. -/
theorem churn_c1 :
    (∃ e, loadFeatureColumns none = Except.error e) ∧
    (∀ lines, ∃ cols, loadFeatureColumns (some lines) = Except.ok cols) ∧
    (∀ env st, servingStartup env = Except.ok st →
      ∃ lines, env.readFile st.schemaFile = some lines ∧
        loadFeatureColumns (some lines) = Except.ok st.featureCols) := by
  refine ⟨⟨"Failed to load feature columns", rfl⟩, fun lines => ⟨_, rfl⟩, ?_⟩
  intro env st h
  cases hsm : startupModel env with
  | error e =>
    simp only [servingStartup, hsm] at h
    exact Except.noConfusion h
  | ok md =>
    obtain ⟨m, dir⟩ := md
    cases hlf : loadFeatureColumns (env.readFile (joinPath dir "feature_columns.txt")) with
    | error e =>
      simp only [servingStartup, hsm, hlf] at h
      exact Except.noConfusion h
    | ok cols =>
      simp only [servingStartup, hsm, hlf, Except.ok.injEq] at h
      subst h
      cases hrf : env.readFile (joinPath dir "feature_columns.txt") with
      | none =>
        rw [hrf] at hlf
        simp only [loadFeatureColumns] at hlf
        exact Except.noConfusion hlf
      | some lines =>
        rw [hrf] at hlf
        exact ⟨lines, rfl, hlf⟩

/-- C1 witness: a concrete started process read its feature file. -/
theorem churn_c1_witness :
    ∃ lines, primaryEnv.readFile primaryState.schemaFile = some lines ∧
      loadFeatureColumns (some lines) = Except.ok primaryState.featureCols :=
  churn_c1.2.2 primaryEnv primaryState (by decide)

/-- C2: every response of the prediction endpoint is an error payload or a
prediction payload carrying one of the two labels, and `predict` itself
returns one of the two labels on every successfully handled input. -/
theorem churn_c2 (clf : List Decimal → Bool) (schema : FeatureSchema) (input : RawRecord) :
    ((∃ msg, get_prediction clf schema input = ApiResponse.error msg) ∨
      (∃ out, get_prediction clf schema input = ApiResponse.prediction out ∧
        (out = "Likely to churn" ∨ out = "Not likely to churn"))) ∧
    (∀ out, predict clf schema input = Except.ok out →
      out = "Likely to churn" ∨ out = "Not likely to churn") := by
  constructor
  · cases henc : encode input schema with
    | error e =>
      left
      exact ⟨errorMessage e, by simp only [get_prediction, predict, henc]⟩
    | ok vec =>
      right
      refine ⟨if clf vec then "Likely to churn" else "Not likely to churn",
        by simp only [get_prediction, predict, henc], ?_⟩
      by_cases hcl : clf vec
      · left; rw [if_pos hcl]
      · right; rw [if_neg hcl]
  · intro out h
    cases henc : encode input schema with
    | error e =>
      simp only [predict, henc] at h
      exact Except.noConfusion h
    | ok vec =>
      simp only [predict, henc, Except.ok.injEq] at h
      subst h
      by_cases hcl : clf vec
      · left; rw [if_pos hcl]
      · right; rw [if_neg hcl]

/-- C2 witness: the example record is successfully handled and yields one of
the two labels. -/
theorem churn_c2_witness :
    "Likely to churn" = "Likely to churn" ∨ "Likely to churn" = "Not likely to churn" :=
  (churn_c2 (fun _ => true) exampleSchema exampleRecord).2 "Likely to churn" rfl

/-- C3: a successfully encoded vector has exactly one value per schema feature
column, the i-th value being the encoding of the i-th column. -/
theorem churn_c3 (r : RawRecord) (schema : FeatureSchema) (v : List Decimal)
    (h : encode r schema = Except.ok v) :
    v.length = schema.feature_columns.length ∧
    ∀ (i : Nat) (hc : i < schema.feature_columns.length) (hv : i < v.length),
      encodeCol schema r (schema.feature_columns.get ⟨i, hc⟩) = Except.ok (v.get ⟨i, hv⟩) := by
  have hf := mapExcept_ok_forall₂ (encodeCol schema r) schema.feature_columns v h
  refine ⟨(List.Forall₂.length_eq hf).symm, ?_⟩
  intro i hc hv
  exact (List.forall₂_iff_get.mp hf).2 i hc hv

/-- C3 witness: the example encoding has the schema's column count. -/
theorem churn_c3_witness :
    ([⟨0, 0⟩, ⟨0, 0⟩, ⟨1, 0⟩, ⟨850, 1⟩] : List Decimal).length =
      exampleSchema.feature_columns.length :=
  (churn_c3 exampleRecord exampleSchema [⟨0, 0⟩, ⟨0, 0⟩, ⟨1, 0⟩, ⟨850, 1⟩] rfl).1

/-- C4: in every state the serving process can start in, the feature-column
file is read from the very directory the model was loaded from — the primary
`/app/model` or the local-mlruns fallback directory. -/
theorem churn_c4 (env : Env) (st : ServingState)
    (h : servingStartup env = Except.ok st) :
    st.schemaFile = joinPath st.modelDir "feature_columns.txt" ∧
    ((st.modelDir = "/app/model" ∧ env.primaryModel = some st.model) ∨
      (env.primaryModel = none ∧ pickLatest env.localPaths = some st.modelDir ∧
        env.loadLocal st.modelDir = some st.model)) := by
  cases hsm : startupModel env with
  | error e =>
    simp only [servingStartup, hsm] at h
    exact Except.noConfusion h
  | ok md =>
    obtain ⟨m, dir⟩ := md
    cases hlf : loadFeatureColumns (env.readFile (joinPath dir "feature_columns.txt")) with
    | error e =>
      simp only [servingStartup, hsm, hlf] at h
      exact Except.noConfusion h
    | ok cols =>
      simp only [servingStartup, hsm, hlf, Except.ok.injEq] at h
      subst h
      refine ⟨rfl, ?_⟩
      cases hp : env.primaryModel with
      | some m0 =>
        simp only [startupModel, hp, Except.ok.injEq, Prod.mk.injEq] at hsm
        obtain ⟨hm, hd⟩ := hsm
        left
        exact ⟨hd.symm, by rw [hm]⟩
      | none =>
        cases hpl : pickLatest env.localPaths with
        | none =>
          simp only [startupModel, hp, hpl] at hsm
          exact Except.noConfusion hsm
        | some p =>
          cases hll : env.loadLocal p with
          | none =>
            simp only [startupModel, hp, hpl, hll] at hsm
            exact Except.noConfusion hsm
          | some m1 =>
            simp only [startupModel, hp, hpl, hll, Except.ok.injEq, Prod.mk.injEq] at hsm
            obtain ⟨hm, hd⟩ := hsm
            right
            refine ⟨rfl, ?_, ?_⟩
            · rw [← hd]
            · rw [← hd, ← hm]; exact hll

/-- C4 witness: a concrete startup through the local-mlruns fallback pairs the
schema file with the fallback model directory. -/
theorem churn_c4_witness :
    fallbackState.schemaFile = joinPath fallbackState.modelDir "feature_columns.txt" ∧
    ((fallbackState.modelDir = "/app/model" ∧
        fallbackEnv.primaryModel = some fallbackState.model) ∨
      (fallbackEnv.primaryModel = none ∧
        pickLatest fallbackEnv.localPaths = some fallbackState.modelDir ∧
        fallbackEnv.loadLocal fallbackState.modelDir = some fallbackState.model)) :=
  churn_c4 fallbackEnv fallbackState (by decide)

/-- C5: for a valid schema and a schema-conformant record, `encode` succeeds
(never raises). -/
theorem churn_c5 (r : RawRecord) (schema : FeatureSchema)
    (hv : ValidSchema schema) (hc : Conformant r schema) :
    ∃ vec, encode r schema = Except.ok vec := by
  show ∃ vec, mapExcept (encodeCol schema r) schema.feature_columns = Except.ok vec
  apply mapExcept_isOk_of_all
  intro col hcol
  cases hbin : schema.binary_fields.lookup col with
  | some m =>
    exact ⟨binaryEncode m (lookupField r col), by simp only [encodeCol, hbin]⟩
  | none =>
    cases hcat : findCatCol col schema.categorical_fields with
    | some fc =>
      obtain ⟨f, c⟩ := fc
      exact ⟨if lookupField r f = some (Value.str c) then ⟨1, 0⟩ else ⟨0, 0⟩,
        by simp only [encodeCol, hbin, hcat]⟩
    | none =>
      have hnum : col ∈ schema.numeric_fields := by
        rcases hv col hcol with h1 | h2 | h3
        · exact absurd hbin h1
        · exact absurd hcat h2
        · exact h3
      have hcf := hc col hcol hnum
      cases hlk : lookupField r col with
      | none => simp [hlk] at hcf
      | some v =>
        cases hco : coerceFloat v with
        | none => simp [hlk, hco] at hcf
        | some q => exact ⟨q, by simp [encodeCol, hbin, hcat, hlk, hco, hnum]⟩

/-- C5 witness: the example record is conformant and encodes successfully. -/
theorem churn_c5_witness :
    ∃ vec, encode exampleRecord exampleSchema = Except.ok vec :=
  churn_c5 exampleRecord exampleSchema (by decide) (by decide)

/-- C6: a record whose declared numeric feature field is missing, or carries a
value that cannot be coerced to a number, makes `encode` fail with an
`EncodingError`. -/
theorem churn_c6 (r : RawRecord) (schema : FeatureSchema) (col : String)
    (hmem : col ∈ schema.feature_columns)
    (hbin : schema.binary_fields.lookup col = none)
    (hcat : findCatCol col schema.categorical_fields = none)
    (hnum : col ∈ schema.numeric_fields)
    (hbad : lookupField r col = none ∨
      ∃ v, lookupField r col = some v ∧ coerceFloat v = none) :
    ∃ e, encode r schema = Except.error e := by
  have hcol : ∀ y, encodeCol schema r col ≠ Except.ok y := by
    intro y hy
    rcases hbad with hnone | ⟨v, hv, hcv⟩
    · simp [encodeCol, hbin, hcat, hnum, hnone] at hy
    · simp [encodeCol, hbin, hcat, hnum, hv, hcv] at hy
  cases henc : encode r schema with
  | ok ys =>
    obtain ⟨y, hy⟩ :=
      mapExcept_ok_of_mem (encodeCol schema r) schema.feature_columns ys henc col hmem
    exact absurd hy (hcol y)
  | error e => exact ⟨e, rfl⟩

/-- C6 witness: a non-numeric string in the numeric field makes the concrete
encoding fail. -/
theorem churn_c6_witness :
    ∃ e, encode badNumericRecord exampleSchema = Except.error e :=
  churn_c6 badNumericRecord exampleSchema "MonthlyCharges" (by decide) (by decide) (by decide)
    (by decide) (Or.inr ⟨Value.str "abc", by decide, by decide⟩)

/-- C7: a binary value absent from the field's fixed table encodes to 0, and a
categorical value never seen in training zeroes every expansion column of its
field; neither case raises. -/
theorem churn_c7 (schema : FeatureSchema) (r : RawRecord) :
    (∀ col m w, schema.binary_fields.lookup col = some m →
      lookupField r col = some (Value.str w) → m.lookup w = none →
      encodeCol schema r col = Except.ok ⟨0, 0⟩) ∧
    (∀ col f c w, schema.binary_fields.lookup col = none →
      findCatCol col schema.categorical_fields = some (f, c) →
      lookupField r f = some (Value.str w) →
      (∀ p ∈ schema.categorical_fields, p.1 = f → w ∉ p.2) →
      encodeCol schema r col = Except.ok ⟨0, 0⟩) := by
  constructor
  · intro col m w hbin hlk hmw
    simp [encodeCol, hbin, hlk, binaryEncode, hmw]
  · intro col f c w hbin hcat hlk hw
    obtain ⟨vocab, hvm, hcd, _⟩ := findCatCol_mem col schema.categorical_fields f c hcat
    have hcv : c ∈ vocab := List.mem_of_mem_drop hcd
    have hne : w ≠ c := fun he => hw (f, vocab) hvm rfl (he ▸ hcv)
    have hcond : ¬ (lookupField r f = some (Value.str c)) := by
      rw [hlk]
      intro hcon
      injection hcon with hv
      injection hv with hwc
      exact hne hwc
    simp only [encodeCol, hbin, hcat]
    rw [if_neg hcond]

/-- C7 witness: unknown binary and categorical values in a concrete record
produce the fallback 0 encodings. -/
theorem churn_c7_witness :
    encodeCol exampleSchema unknownValuesRecord "gender" = Except.ok ⟨0, 0⟩ ∧
    encodeCol exampleSchema unknownValuesRecord "Contract_One year" = Except.ok ⟨0, 0⟩ :=
  ⟨(churn_c7 exampleSchema unknownValuesRecord).1 "gender" [("Female", 0), ("Male", 1)] "Alien"
      (by decide) (by decide) (by decide),
    (churn_c7 exampleSchema unknownValuesRecord).2 "Contract_One year" "Contract" "One year"
      "Weekly" (by decide) (by decide) (by decide) (by decide)⟩

/-- C8 counterexample: a schema whose column name carries surrounding
whitespace does not survive the round trip, because the code's load strips
each persisted line; so `load(persist(schema)) == schema` fails for this
schema. -/
theorem churn_c8_counterexample : loadSchema (persist paddedSchema) ≠ paddedSchema := by
  decide

/-- C8 (amended): `load(persist(schema)) == schema` on every field — binary
tables, vocabularies and the ordered column list — for every schema whose
column names are non-blank and carry no surrounding whitespace (the code's
load strips each line and drops blank lines, so padded or blank column names
do not round-trip). -/
theorem churn_c8 (s : FeatureSchema)
    (h : ∀ c ∈ s.feature_columns, strip c = c ∧ c ≠ "") :
    loadSchema (persist s) = s := by
  have key : ∀ l : List String, (∀ c ∈ l, strip c = c ∧ c ≠ "") →
      l.filterMap (fun ln => if strip ln = "" then none else some (strip ln)) = l := by
    intro l
    induction l with
    | nil => intro _; rfl
    | cons a t ih =>
      intro hl
      obtain ⟨hs, hne⟩ := hl a (List.mem_cons_self a t)
      have hcond : ¬ (strip a = "") := by rw [hs]; exact hne
      simp only [List.filterMap_cons, if_neg hcond]
      rw [hs, ih (fun c hc => hl c (List.mem_cons_of_mem a hc))]
  cases s with
  | mk bf cf nf fc =>
    simp only [loadSchema, persist]
    exact congrArg (FeatureSchema.mk bf cf nf) (key fc h)

/-- C8 witness: the example schema's clean column names round-trip exactly. -/
theorem churn_c8_witness : loadSchema (persist exampleSchema) = exampleSchema :=
  churn_c8 exampleSchema (by decide)

/-- C9: the health endpoint returns the fixed payload `{"status": "ok"}` in
every state, independently of that state. -/
theorem churn_c9 :
    ∀ st : ServingState, root st = { status := "ok" } ∧
      ∀ st2 : ServingState, root st = root st2 :=
  fun _ => ⟨rfl, fun _ => rfl⟩

/-- C10: after a successful feature-column load every loaded column is a
non-empty fully stripped string, the loaded count never exceeds the file's
line count, and an all-blank file yields the empty list without error. -/
theorem churn_c10 (lines cols : List String)
    (h : loadFeatureColumns (some lines) = Except.ok cols) :
    (∀ c ∈ cols, c ≠ "" ∧ strip c = c) ∧
    cols.length ≤ lines.length ∧
    ((∀ ln ∈ lines, strip ln = "") → cols = []) := by
  have hc : cols =
      lines.filterMap (fun ln => if strip ln = "" then none else some (strip ln)) := by
    simp only [loadFeatureColumns, Except.ok.injEq] at h
    exact h.symm
  subst hc
  refine ⟨?_, List.length_filterMap_le _ _, ?_⟩
  · intro c hcm
    obtain ⟨ln, _, hfl⟩ := List.mem_filterMap.mp hcm
    by_cases hstrip : strip ln = ""
    · rw [if_pos hstrip] at hfl
      exact Option.noConfusion hfl
    · rw [if_neg hstrip] at hfl
      injection hfl with hfl2
      constructor
      · rw [← hfl2]; exact hstrip
      · rw [← hfl2]; exact strip_idem ln
  · intro hall
    refine List.filterMap_eq_nil_iff.mpr ?_
    intro a ha
    rw [if_pos (hall a ha)]

/-- C10 witness: a concrete file with a padded line and a blank line loads to
fewer columns than lines. -/
theorem churn_c10_witness :
    (["gender", "Contract"] : List String).length ≤
      (["  gender ", "", "Contract"] : List String).length :=
  (churn_c10 ["  gender ", "", "Contract"] ["gender", "Contract"] (by decide)).2.1

end Churn
